import Mathlib

/-!
Verification of the latency-probing core of `subman`.

This file shallowly embeds the parts of the repository the claims are
about — the port allocator, the latency probes, the bounded-concurrency
scheduler (`src/latency.rs`), and the result sink / view model
(`src/app.rs`, `src/vmess.rs`) — and proves the specification claims
about them.

Conventions of the embedding:
* Machine integers (`u16`, `u64`) are `Nat` with explicit `% 2^w`
  wherever the Rust code can overflow (only the `AtomicU16` counter).
* The static `PORT_COUNTER` is threaded as explicit state.
* Effectful probe code is a function of an environment record that
  records the outcome of each fallible step, mirroring the `match` /
  early-return structure of the source.
* The concurrent scheduler is modelled with an abstract global time
  line: the shared `AtomicBool` cancel flag is a monotone function of
  time, and each probe task carries the times at which it observes the
  flag.  The sequential admission loop and the absence of any
  cancellation point inside a running probe are reflected in the
  structure of the definitions.
-/

namespace Subman

/-- `LatencyStatus` (src/vmess.rs, lines 6-15). -/
inductive LatencyStatus where
  | NotTested
  | TimedOut
  | Success (ms : Nat)
deriving DecidableEq, Repr

/-- `TestType` (src/latency.rs, lines 19-23). -/
inductive TestType where
  | Http
  | Tcp
deriving DecidableEq, Repr

/-! ## Port allocator (src/latency.rs, lines 15-38)

The allocator state is the current value of the `AtomicU16`
`PORT_COUNTER`; `fetch_add` wraps modulo `2^16`, made explicit below.
The counter is initialised to 10800. -/

/-- Initial value of `PORT_COUNTER` (src/latency.rs, line 16). -/
def PORT_COUNTER_INIT : Nat := 10800

/-- `get_test_port` (src/latency.rs, lines 26-33).  `fetch_add(1)` returns
the old counter value and stores `old + 1` modulo `2^16`; if the value
obtained exceeds 60000 the counter is overwritten with 10800 and 10800
is returned.  Returns `(returned port, new counter state)`. -/
def get_test_port (c : Nat) : Nat × Nat :=
  let port := c
  let c1 := (c + 1) % 65536
  if port > 60000 then (10800, 10800) else (port, c1)

/-- `reset_port_counter` (src/latency.rs, lines 36-38): stores 10800
regardless of the current state. -/
def reset_port_counter (_c : Nat) : Nat := 10800

/-- One operation of a call history against the allocator. -/
inductive PortOp where
  | next
  | reset
deriving DecidableEq

/-- Counter state after running a call history from state `c`. -/
def runPortOps : List PortOp → Nat → Nat
  | [], c => c
  | PortOp.next :: ops, c => runPortOps ops (get_test_port c).2
  | PortOp.reset :: ops, c => runPortOps ops (reset_port_counter c)

/-- The values returned by the `next` calls of a call history run from
state `c`, in order. -/
def portOutputs : List PortOp → Nat → List Nat
  | [], _ => []
  | PortOp.next :: ops, c => (get_test_port c).1 :: portOutputs ops (get_test_port c).2
  | PortOp.reset :: ops, c => portOutputs ops (reset_port_counter c)

/-- Counter state after `n` consecutive `get_test_port` calls from `c`. -/
def counterAfter : Nat → Nat → Nat
  | 0, c => c
  | n + 1, c => counterAfter n (get_test_port c).2

/-- Value returned by the `(k+1)`-st `get_test_port` call after a reset
(i.e. starting from counter state 10800). -/
def nthPort (k : Nat) : Nat := (get_test_port (counterAfter k 10800)).1

/-- The list of the first `n` ports allocated from counter state `c`. -/
def portTrace (c : Nat) : Nat → List Nat
  | 0 => []
  | n + 1 => (get_test_port c).1 :: portTrace (get_test_port c).2 n

/-! ## Node data model (src/vmess.rs) -/

/-- Model of `serde_json::Value` restricted to the shapes the
`VmessNode.port` / `aid` fields take: null, a non-negative integer, or a
string (src/vmess.rs, fields `port` and `aid`). -/
inductive JsonVal where
  | null
  | num (n : Nat)
  | str (s : String)
deriving DecidableEq

/-- `VmessNode` (src/vmess.rs, lines 23-58).  The serde attributes are
irrelevant to the embedded behaviour; the two runtime latency fields are
carried alongside the link fields. -/
structure VmessNode where
  v : String
  ps : String
  add : String
  port : JsonVal
  id : String
  aid : JsonVal
  net : String
  type_field : String
  host : String
  path : String
  tls : String
  sni : String
  alpn : String
  fp : String
  http_latency : LatencyStatus
  tcp_latency : LatencyStatus
deriving DecidableEq

/-- `Default for VmessNode` (src/vmess.rs, lines 60-81). -/
def VmessNode.default : VmessNode :=
  { v := "", ps := "", add := "", port := JsonVal.null, id := ""
    aid := JsonVal.null, net := "", type_field := "", host := "", path := ""
    tls := "", sni := "", alpn := "", fp := ""
    http_latency := LatencyStatus.NotTested, tcp_latency := LatencyStatus.NotTested }

/-- `VmessNode::get_port` (src/vmess.rs, lines 110-116).  A JSON number is
cast `as u16` (truncation modulo `2^16`); a string is parsed as `u16`
(range-checked), defaulting to 443 on failure; anything else is 443. -/
def VmessNode.get_port (n : VmessNode) : Nat :=
  match n.port with
  | JsonVal.num m => m % 65536
  | JsonVal.str s =>
      match s.toNat? with
      | some m => if m < 65536 then m else 443
      | none => 443
  | JsonVal.null => 443

/-- `VmessNode::display_name` (src/vmess.rs, lines 128-134). -/
def VmessNode.display_name (n : VmessNode) : String :=
  if n.ps = "" then n.add ++ ":" ++ toString n.get_port else n.ps

/-- Read the latency field selected by a test type. -/
def latencyOf (tt : TestType) (n : VmessNode) : LatencyStatus :=
  match tt with
  | TestType.Http => n.http_latency
  | TestType.Tcp => n.tcp_latency

/-- Write the latency field selected by a test type, as the two `match`
arms of `App::update_latency` do (src/app.rs, lines 275-278, 286-289). -/
def setLatency (tt : TestType) (s : LatencyStatus) (n : VmessNode) : VmessNode :=
  match tt with
  | TestType.Http => { n with http_latency := s }
  | TestType.Tcp => { n with tcp_latency := s }

/-- `a` and `b` agree on every `VmessNode` field other than the latency
field selected by `tt`. -/
def otherFieldsEq (tt : TestType) (a b : VmessNode) : Prop :=
  a.v = b.v ∧ a.ps = b.ps ∧ a.add = b.add ∧ a.port = b.port ∧ a.id = b.id ∧
  a.aid = b.aid ∧ a.net = b.net ∧ a.type_field = b.type_field ∧
  a.host = b.host ∧ a.path = b.path ∧ a.tls = b.tls ∧ a.sni = b.sni ∧
  a.alpn = b.alpn ∧ a.fp = b.fp ∧
  (match tt with
   | TestType.Http => a.tcp_latency = b.tcp_latency
   | TestType.Tcp => a.http_latency = b.http_latency)

/-! ## Result sink / view model (src/app.rs) -/

/-- `IndexedNode` (src/app.rs, lines 85-89). -/
structure IndexedNode where
  node : VmessNode
  original_index : Nat
deriving DecidableEq

/-- `LatencyResult` (src/latency.rs, lines 153-157). -/
structure LatencyResult where
  index : Nat
  latency : LatencyStatus
  test_type : TestType
deriving DecidableEq

/-- The two joined views held by `App` (src/app.rs, lines 92-129): the
canonical list `nodes` and the sorted view `sorted_nodes`.  The purely
presentational fields of `App` play no role in the claims and are
omitted. -/
structure App where
  nodes : List VmessNode
  sorted_nodes : List IndexedNode
deriving DecidableEq

/-- In-place update of the element at position `i`, the effect of
`Vec::get_mut(i)` followed by a field assignment: positions other than
`i` are untouched, and an out-of-range `i` leaves the list unchanged. -/
def modifyAt (f : α → α) : Nat → List α → List α
  | _, [] => []
  | 0, a :: as => f a :: as
  | n + 1, a :: as => a :: modifyAt f n as

/-- In-place update of the first element satisfying `p`, the effect of
`iter_mut().find(p)` followed by a field assignment: every other element
(and every position) is untouched; if no element matches, the list is
unchanged. -/
def updateFirst (p : α → Bool) (f : α → α) : List α → List α
  | [] => []
  | a :: as => if p a then f a :: as else a :: updateFirst p f as

/-- `App::update_latency` (src/app.rs, lines 272-291): set the latency
field selected by `result.test_type` on the node at position
`result.index` of the canonical list (if any), and on the first node of
the sorted view whose `original_index` equals `result.index` (if any). -/
def App.update_latency (app : App) (result : LatencyResult) : App :=
  { nodes := modifyAt (setLatency result.test_type result.latency) result.index app.nodes
    sorted_nodes :=
      updateFirst (fun n => n.original_index == result.index)
        (fun n => { n with node := setLatency result.test_type result.latency n.node })
        app.sorted_nodes }

/-! ## Sorting (src/app.rs, lines 9-57, 445-498) -/

/-- `SortColumn` (src/app.rs, lines 10-17). -/
inductive SortColumn where
  | None
  | Name
  | Tcp
  | Http
deriving DecidableEq

/-- `SortDirection` (src/app.rs, lines 52-57). -/
inductive SortDirection where
  | Ascending
  | Descending
deriving DecidableEq

/-- `latency_sort_key` (src/app.rs, lines 447-453): the `(u8, u64)` key. -/
def latency_sort_key (status : LatencyStatus) : Nat × Nat :=
  match status with
  | LatencyStatus.Success ms => (0, ms)
  | LatencyStatus.TimedOut => (1, 0)
  | LatencyStatus.NotTested => (2, 0)

/-- The derived lexicographic `Ord` on the `(u8, u64)` key used by
`latency_sort_key(..).cmp(..)` in the source. -/
def keyCmp (a b : Nat × Nat) : Ordering :=
  (compare a.1 b.1).then (compare a.2 b.2)

/-- `Ordering::reverse` applied when the direction is `Descending`
(src/app.rs, lines 468-472 etc.). -/
def dirCmp (dir : SortDirection) (o : Ordering) : Ordering :=
  match dir with
  | SortDirection.Ascending => o
  | SortDirection.Descending => o.swap

/-- `apply_sort_to_nodes` (src/app.rs, lines 456-498).  Rust's
`sort_by` / `sort_by_key` are stable sorts driven by a comparator; they
are embedded as the stable `List.mergeSort` with the order
`cmp a b ≠ Greater`.  (Rust compares `String`s byte-lexicographically;
Lean's `compare` on `String` is lexicographic on characters — the two
agree on ASCII, and no claim depends on the `Name` column.) -/
def apply_sort_to_nodes (nodes : List IndexedNode) (sort_column : SortColumn)
    (sort_direction : SortDirection) : List IndexedNode :=
  match sort_column with
  | SortColumn.None =>
      nodes.mergeSort (fun a b => decide (a.original_index ≤ b.original_index))
  | SortColumn.Name =>
      nodes.mergeSort (fun a b =>
        decide (dirCmp sort_direction
          (compare a.node.display_name b.node.display_name) ≠ Ordering.gt))
  | SortColumn.Tcp =>
      nodes.mergeSort (fun a b =>
        decide (dirCmp sort_direction
          (keyCmp (latency_sort_key a.node.tcp_latency)
            (latency_sort_key b.node.tcp_latency)) ≠ Ordering.gt))
  | SortColumn.Http =>
      nodes.mergeSort (fun a b =>
        decide (dirCmp sort_direction
          (keyCmp (latency_sort_key a.node.http_latency)
            (latency_sort_key b.node.http_latency)) ≠ Ordering.gt))

/-- The ordering the specification describes for an ascending latency
column: every `Success` before every `TimedOut` before every
`NotTested`, and `Success` values ascending by milliseconds. -/
def specLatencyLe : LatencyStatus → LatencyStatus → Prop
  | LatencyStatus.Success m, LatencyStatus.Success m2 => m ≤ m2
  | LatencyStatus.Success _, _ => True
  | LatencyStatus.TimedOut, LatencyStatus.Success _ => False
  | LatencyStatus.TimedOut, _ => True
  | LatencyStatus.NotTested, LatencyStatus.NotTested => True
  | LatencyStatus.NotTested, _ => False

/-! ## Latency probes (src/latency.rs, lines 86-150)

The probes perform I/O; each fallible step's outcome is abstracted into
an environment record, and the probe body is embedded as the same
sequence of early-return `match`es as the source. -/

/-- Outcomes of the fallible steps of `test_node_http_latency`, in the
order the source performs them.  `response = some s` means the proxied
request produced a response with status code `s`; `none` covers
connection failure and the 5-second client timeout. -/
structure HttpEnv where
  configWriteOk : Bool
  guardOk : Bool
  proxyOk : Bool
  clientOk : Bool
  response : Option Nat
  elapsedMs : Nat
deriving DecidableEq

/-- `StatusCode::is_success` of the `http` crate: `200 ≤ s < 300`. -/
def statusIsSuccess (s : Nat) : Bool := decide (200 ≤ s) && decide (s < 300)

/-- Where a cleanup of the test config artifact is performed. -/
inductive CleanupSite where
  | guardDrop
  | probeStartFailurePath
deriving DecidableEq

/-- `test_node_http_latency` (src/latency.rs, lines 87-133), instrumented
with the config-file cleanups the source performs on each path:
`ProcessGuard::drop` (line 51) runs whenever the guard was acquired and
the scope ends, and the probe itself removes the config file manually on
the `start_xray` failure path (line 100).  On the config-write failure
path no file was written and nothing is cleaned. -/
def test_node_http_latency_ev (env : HttpEnv) : LatencyStatus × List CleanupSite :=
  if !env.configWriteOk then (LatencyStatus.TimedOut, [])
  else if !env.guardOk then (LatencyStatus.TimedOut, [CleanupSite.probeStartFailurePath])
  else if !env.proxyOk then (LatencyStatus.TimedOut, [CleanupSite.guardDrop])
  else if !env.clientOk then (LatencyStatus.TimedOut, [CleanupSite.guardDrop])
  else
    match env.response with
    | some s =>
        (if statusIsSuccess s || s == 204 then LatencyStatus.Success env.elapsedMs
         else LatencyStatus.TimedOut, [CleanupSite.guardDrop])
    | none => (LatencyStatus.TimedOut, [CleanupSite.guardDrop])

/-- The status returned by `test_node_http_latency`. -/
def test_node_http_latency (env : HttpEnv) : LatencyStatus :=
  (test_node_http_latency_ev env).1

/-- Outcome of the one fallible step of `test_node_tcp_latency`:
`connectOk` is true when `TcpStream::connect` succeeded within the
5-second `tokio::time::timeout`. -/
structure TcpEnv where
  connectOk : Bool
  elapsedMs : Nat
deriving DecidableEq

/-- `test_node_tcp_latency` (src/latency.rs, lines 136-150). -/
def test_node_tcp_latency (env : TcpEnv) : LatencyStatus :=
  if env.connectOk then LatencyStatus.Success env.elapsedMs
  else LatencyStatus.TimedOut

/-- The claim of spec §4.2: the Process Guard is the single place where
cleanup of the config artifact is implemented — every cleanup the HTTP
probe performs, on every path, comes from the guard's drop. -/
def cleanupOnlyInGuard : Prop :=
  ∀ env : HttpEnv, ∀ site ∈ (test_node_http_latency_ev env).2,
    site = CleanupSite.guardDrop

/-! ## Concurrency scheduler (src/latency.rs, lines 161-215)

Time is an abstract `Nat` line.  The cancel flag is a function
`flag : Nat → Bool`; it models an `AtomicBool` that is only ever set, so
the theorems assume it monotone.  A `Timing` assigns to each node index
the instants at which the code observes the flag: `tAdmit i` is the
admission-loop check (line 175), `tStart i` the check at the top of the
spawned task (line 185), `tSend i` the check before sending the result
(line 196).  The admission loop is sequential (`tAdmit` strictly
monotone) and each task's checks happen after its admission, in order;
tasks of different indices interleave arbitrarily. -/

structure Timing where
  tAdmit : Nat → Nat
  tStart : Nat → Nat
  tSend : Nat → Nat

/-- Well-formedness of a timing: the admission loop runs its checks in
index order, and each task's own checks follow its admission. -/
def Timing.WF (tm : Timing) : Prop :=
  (∀ i j, i < j → tm.tAdmit i < tm.tAdmit j) ∧
  (∀ i, tm.tAdmit i < tm.tStart i) ∧
  (∀ i, tm.tStart i < tm.tSend i)

/-- The flag is only ever set, never cleared. -/
def MonotoneFlag (flag : Nat → Bool) : Prop :=
  ∀ s t, s ≤ t → flag s = true → flag t = true

/-- The indices admitted by the `for` loop (src/latency.rs, lines
173-177): enumeration order, breaking at the first admission check that
sees the flag set. -/
def admittedIndices (flag : Nat → Bool) (tm : Timing) (M : Nat) : List Nat :=
  (List.range M).takeWhile (fun i => !flag (tm.tAdmit i))

/-- What one spawned task did by the time it finished. -/
inductive TaskOutcome where
  | earlyReturn (i : Nat)
  | discarded (r : LatencyResult)
  | delivered (r : LatencyResult)
deriving DecidableEq

/-- The body of one spawned task (src/latency.rs, lines 183-206): if the
flag is set at the top, return without probing; otherwise run the probe
to completion — there is no cancellation point inside the probe — and
then deliver the result unless the flag is set at the send check.
`probe i` is the status the node of index `i` probes to. -/
def runTask (flag : Nat → Bool) (tm : Timing) (probe : Nat → LatencyStatus)
    (tt : TestType) (i : Nat) : TaskOutcome :=
  if flag (tm.tStart i) then TaskOutcome.earlyReturn i
  else
    let r : LatencyResult := { index := i, latency := probe i, test_type := tt }
    if flag (tm.tSend i) then TaskOutcome.discarded r else TaskOutcome.delivered r

/-- `test_all_latencies` (src/latency.rs, lines 161-215): reset the port
allocator, admit probes in enumeration order until the flag is seen,
then join every spawned task.  The returned value is `some (outcomes,
ports)` — one outcome per admitted index, in admission order, plus the
ports the admitted HTTP probes drew from the freshly reset allocator —
or `none` for the one way the coordination can fail to return: with
`max_concurrent = 0` the first `acquire_owned().await` never resolves.
(Port draws happen inside concurrent tasks; the trace serialises them in
admission order, which is faithful for every property stated here since
the allocator is reset before any task is spawned.) -/
def test_all_latencies (max_concurrent : Nat) (flag : Nat → Bool) (tm : Timing)
    (probe : Nat → LatencyStatus) (tt : TestType) (M : Nat) (c0 : Nat) :
    Option (List TaskOutcome × List Nat) :=
  let c1 := reset_port_counter c0
  let adm := admittedIndices flag tm M
  if max_concurrent = 0 ∧ adm ≠ [] then none
  else
    some (adm.map (runTask flag tm probe tt),
      portTrace c1 (if tt = TestType.Http then adm.length else 0))

/-- The results actually delivered to the result channel. -/
def deliveredResults (outs : List TaskOutcome) : List LatencyResult :=
  outs.filterMap fun o =>
    match o with
    | TaskOutcome.delivered r => some r
    | _ => none

/-! ## Theorems: port allocator (claims C3, C9, C10) -/

/-- Stepping once more commutes with stepping first. -/
theorem counterAfter_succ (n : Nat) :
    ∀ c, counterAfter (n + 1) c = (get_test_port (counterAfter n c)).2 := by
  induction n with
  | zero => intro c; rfl
  | succ n ih =>
    intro c
    have h1 : counterAfter (n + 1 + 1) c = counterAfter (n + 1) ((get_test_port c).2) := rfl
    rw [h1, ih ((get_test_port c).2)]
    rfl

/-- Splitting a run of `next` calls. -/
theorem counterAfter_add (m : Nat) :
    ∀ n c, counterAfter (m + n) c = counterAfter n (counterAfter m c) := by
  induction m with
  | zero => intro n c; rw [Nat.zero_add]; rfl
  | succ m ih =>
    intro n c
    have e : m + 1 + n = m + n + 1 := by omega
    rw [e, counterAfter_succ (m + n) c, ih n c, counterAfter_succ m c,
      ← counterAfter_succ n (counterAfter m c)]
    rfl

/-- Below the wraparound boundary the counter just counts up. -/
theorem counterAfter_floor : ∀ k, k ≤ 49201 → counterAfter k 10800 = 10800 + k := by
  intro k
  induction k with
  | zero => intro _; rfl
  | succ k ih =>
    intro hk
    rw [counterAfter_succ k 10800, ih (by omega)]
    have hc : ¬ (10800 + k > 60000) := by omega
    simp only [get_test_port, hc, if_false]
    omega

/-- For calls before the wraparound the value returned is floor plus call
index. -/
theorem nthPort_lt (k : Nat) (hk : k < 49201) : nthPort k = 10800 + k := by
  unfold nthPort
  rw [counterAfter_floor k (by omega)]
  have hc : ¬ (10800 + k > 60000) := by omega
  simp only [get_test_port, hc, if_false]

/-- The call whose `fetch_add` result exceeds the ceiling returns the floor. -/
theorem nthPort_wrap : nthPort 49201 = 10800 := by
  have h1 : counterAfter 49201 10800 = 10800 + 49201 := counterAfter_floor 49201 (by omega)
  have h2 : nthPort 49201 = (get_test_port (10800 + 49201)).1 := by
    rw [nthPort, h1]
  rw [h2]
  norm_num [get_test_port]

/-- After the wraparound call the counter is back at the floor. -/
theorem counterAfter_wrap : counterAfter 49202 10800 = 10800 := by
  have h1 : counterAfter 49201 10800 = 10800 + 49201 := counterAfter_floor 49201 (by omega)
  have h2 : counterAfter 49202 10800 = (get_test_port (10800 + 49201)).2 := by
    rw [show (49202 : Nat) = 49201 + 1 from rfl, counterAfter_succ 49201 10800, h1]
  rw [h2]
  norm_num [get_test_port]

/-- Calls after the wraparound replay the calls after a reset. -/
theorem nthPort_shift (k : Nat) : nthPort (49202 + k) = nthPort k := by
  unfold nthPort
  rw [counterAfter_add 49202 k 10800, counterAfter_wrap]

/-- Claim C3: after a reset, the first 49201 calls return strictly
increasing values `10800 + k` starting from the floor; call 49201, whose
`fetch_add` result 60001 exceeds the ceiling 60000, returns the floor
instead; and subsequent calls return strictly increasing values starting
from the floor again. -/
theorem port_allocator_sequence :
    (∀ k, k < 49201 → nthPort k = 10800 + k) ∧
    (∀ i j, i < j → j < 49201 → nthPort i < nthPort j) ∧
    nthPort 49201 = 10800 ∧
    (∀ k, k < 49201 → nthPort (49202 + k) = 10800 + k) ∧
    (∀ i j, i < j → j < 49201 → nthPort (49202 + i) < nthPort (49202 + j)) := by
  refine ⟨nthPort_lt, ?_, nthPort_wrap, ?_, ?_⟩
  · intro i j hij hj
    rw [nthPort_lt i (by omega), nthPort_lt j hj]
    omega
  · intro k hk
    rw [nthPort_shift, nthPort_lt k hk]
  · intro i j hij hj
    rw [nthPort_shift, nthPort_shift, nthPort_lt i (by omega), nthPort_lt j hj]
    omega

/-- Concrete instance of claim C3's theorem. -/
theorem port_allocator_sequence_witness :
    nthPort 0 = 10800 + 0 ∧ nthPort 0 < nthPort 1 ∧ nthPort (49202 + 0) = 10800 + 0 :=
  ⟨port_allocator_sequence.1 0 (by decide),
   port_allocator_sequence.2.1 0 1 (by decide) (by decide),
   port_allocator_sequence.2.2.2.1 0 (by decide)⟩

/-- Claim C9: calling `reset_port_counter` after any call history makes
the immediately following `get_test_port` call return the floor; and in
`test_all_latencies` (which performs the reset first, before the
admission loop) the first port drawn by an admitted HTTP probe is the
floor, whatever counter state the batch started from. -/
theorem allocator_reset :
    (∀ (ops : List PortOp) (c : Nat),
      (get_test_port (reset_port_counter (runPortOps ops c))).1 = 10800) ∧
    (∀ (max_concurrent : Nat) (flag : Nat → Bool) (tm : Timing)
        (probe : Nat → LatencyStatus) (M : Nat) (c0 : Nat)
        (outs : List TaskOutcome) (ports : List Nat),
      test_all_latencies max_concurrent flag tm probe TestType.Http M c0
          = some (outs, ports) →
      ports ≠ [] → ports.head? = some 10800) := by
  constructor
  · intro ops c
    rfl
  · intro max_concurrent flag tm probe M c0 outs ports h hne
    by_cases hcond : max_concurrent = 0 ∧ admittedIndices flag tm M ≠ []
    · have hnone : test_all_latencies max_concurrent flag tm probe TestType.Http M c0
          = none := by
        simp only [test_all_latencies, reset_port_counter]
        rw [if_pos hcond]
      rw [hnone] at h
      exact absurd h (by simp)
    · have hsome : test_all_latencies max_concurrent flag tm probe TestType.Http M c0 =
          some ((admittedIndices flag tm M).map (runTask flag tm probe TestType.Http),
            portTrace 10800 (admittedIndices flag tm M).length) := by
        simp only [test_all_latencies, reset_port_counter]
        rw [if_neg hcond]
        simp only [if_true]
      rw [hsome] at h
      have hports : portTrace 10800 (admittedIndices flag tm M).length = ports :=
        ((Prod.mk.injEq _ _ _ _).mp (Option.some.inj h)).2
      cases hk : (admittedIndices flag tm M).length with
      | zero =>
        rw [hk] at hports
        exact absurd (hports.symm.trans (rfl : portTrace 10800 0 = [])) hne
      | succ k =>
        rw [hk] at hports
        rw [← hports]
        rfl

/-- Concrete instance of claim C9's theorem. -/
theorem allocator_reset_witness :
    (get_test_port (reset_port_counter (runPortOps [PortOp.next] 0))).1 = 10800 ∧
    ([10800] : List Nat).head? = some 10800 := by
  constructor
  · exact allocator_reset.1 [PortOp.next] 0
  · exact allocator_reset.2 1 (fun _ => false) ⟨fun i => i, fun i => i, fun i => i⟩
      (fun _ => LatencyStatus.TimedOut) 1 5
      [TaskOutcome.delivered ⟨0, LatencyStatus.TimedOut, TestType.Http⟩] [10800]
      (by decide) (by decide)

/-- All counter states reachable from the initial one lie in
`[10800, 60001]`, and every value returned lies in `[10800, 60000]`. -/
theorem portOutputs_range_aux : ∀ (ops : List PortOp) (c : Nat),
    10800 ≤ c → c ≤ 60001 → ∀ p ∈ portOutputs ops c, 10800 ≤ p ∧ p ≤ 60000 := by
  intro ops
  induction ops with
  | nil =>
    intro c _ _ p hp
    simp [portOutputs] at hp
  | cons op ops ih =>
    intro c hlo hhi p hp
    cases op with
    | next =>
      by_cases hc : c > 60000
      · simp only [portOutputs, get_test_port, hc, if_true, List.mem_cons] at hp
        rcases hp with h | h
        · omega
        · exact ih 10800 (by omega) (by omega) p h
      · have hm : (c + 1) % 65536 = c + 1 := Nat.mod_eq_of_lt (by omega)
        simp only [portOutputs, get_test_port, hc, if_false, List.mem_cons] at hp
        rcases hp with h | h
        · omega
        · rw [hm] at h
          exact ih (c + 1) (by omega) (by omega) p h
    | reset =>
      simp only [portOutputs, reset_port_counter] at hp
      exact ih 10800 (by omega) (by omega) p hp

/-- Claim C10: for every call history of `next` and `reset` starting from
the initial counter state, every port value returned lies in the closed
interval `[10800, 60000]`. -/
theorem port_range_invariant (ops : List PortOp) (p : Nat)
    (hp : p ∈ portOutputs ops PORT_COUNTER_INIT) : 10800 ≤ p ∧ p ≤ 60000 :=
  portOutputs_range_aux ops PORT_COUNTER_INIT (by decide) (by decide) p hp

/-- Concrete instance of claim C10's theorem. -/
theorem port_range_invariant_witness : 10800 ≤ 10801 ∧ 10801 ≤ 60000 :=
  port_range_invariant [PortOp.next, PortOp.next] 10801 (by decide)

/-! ## Theorems: latency probes (claims C5, C8, C6) -/

/-- The HTTP probe returns either `TimedOut` or `Success` of the measured
elapsed time, whatever the environment. -/
theorem test_node_http_latency_cases (env : HttpEnv) :
    test_node_http_latency env = LatencyStatus.TimedOut ∨
    test_node_http_latency env = LatencyStatus.Success env.elapsedMs := by
  obtain ⟨cw, g, px, cl, resp, ms⟩ := env
  cases cw
  · left; rfl
  · cases g
    · left; rfl
    · cases px
      · left; rfl
      · cases cl
        · left; rfl
        · cases resp with
          | none => left; rfl
          | some s =>
            by_cases hs : (statusIsSuccess s || s == 204) = true
            · right
              simp [test_node_http_latency, test_node_http_latency_ev, hs]
            · left
              simp [test_node_http_latency, test_node_http_latency_ev, hs]

/-- Claim C5: both probe functions are total over their failure modes:
for every environment (covering config-write failure, guard/readiness
failure, proxy or client build failure, connection failure, non-success
response, timeout), the HTTP probe returns `TimedOut` or
`Success elapsed` and the TCP probe returns `TimedOut` or
`Success elapsed`; `NotTested` is never produced and no error escapes. -/
theorem probe_totality :
    (∀ env : HttpEnv, test_node_http_latency env = LatencyStatus.TimedOut ∨
      test_node_http_latency env = LatencyStatus.Success env.elapsedMs) ∧
    (∀ env : TcpEnv, test_node_tcp_latency env = LatencyStatus.TimedOut ∨
      test_node_tcp_latency env = LatencyStatus.Success env.elapsedMs) := by
  refine ⟨test_node_http_latency_cases, ?_⟩
  intro env
  obtain ⟨ok, ms⟩ := env
  cases ok
  · left; rfl
  · right; rfl

/-- Claim C8: the HTTP probe returns `Success (elapsed ms)` exactly when
all setup steps succeeded and the proxied request produced a response
whose status is 2xx or exactly 204; in every other case it returns
`TimedOut`. -/
theorem http_probe_classification (env : HttpEnv) :
    (test_node_http_latency env = LatencyStatus.Success env.elapsedMs ↔
      env.configWriteOk = true ∧ env.guardOk = true ∧ env.proxyOk = true ∧
      env.clientOk = true ∧
      ∃ s, env.response = some s ∧ ((200 ≤ s ∧ s < 300) ∨ s = 204)) ∧
    (test_node_http_latency env = LatencyStatus.Success env.elapsedMs ∨
      test_node_http_latency env = LatencyStatus.TimedOut) := by
  constructor
  · obtain ⟨cw, g, px, cl, resp, ms⟩ := env
    cases cw
    · simp [test_node_http_latency, test_node_http_latency_ev]
    · cases g
      · simp [test_node_http_latency, test_node_http_latency_ev]
      · cases px
        · simp [test_node_http_latency, test_node_http_latency_ev]
        · cases cl
          · simp [test_node_http_latency, test_node_http_latency_ev]
          · cases resp with
            | none => simp [test_node_http_latency, test_node_http_latency_ev]
            | some s =>
              by_cases hs : (200 ≤ s ∧ s < 300) ∨ s = 204
              · simp [test_node_http_latency, test_node_http_latency_ev,
                  statusIsSuccess, hs]
              · simp [test_node_http_latency, test_node_http_latency_ev,
                  statusIsSuccess, hs]
  · exact (test_node_http_latency_cases env).symm

/-- Claim C6 is refuted at a concrete input: with a writable config but a
failing `start_xray`, the probe itself removes the config artifact
(src/latency.rs, line 100), so the Process Guard is not the single place
where cleanup of these resources is performed. -/
theorem cleanup_locality_counterexample : ¬ cleanupOnlyInGuard := by
  intro h
  have hx := h
    { configWriteOk := true, guardOk := false, proxyOk := true, clientOk := true,
      response := none, elapsedMs := 0 }
    CleanupSite.probeStartFailurePath (by decide)
  exact absurd hx (by decide)

/-- Claim C6 as amended: on every path on which the guard was acquired,
the only cleanup is the guard's drop; the single exception is the
guard-acquisition-failure path, on which the probe itself removes the
config artifact; and every path that wrote the config performs some
cleanup. -/
theorem cleanup_sites_amended (env : HttpEnv) :
    (∀ site ∈ (test_node_http_latency_ev env).2,
      site = CleanupSite.guardDrop ∨
        (site = CleanupSite.probeStartFailurePath ∧ env.configWriteOk = true ∧
          env.guardOk = false)) ∧
    (env.configWriteOk = true → (test_node_http_latency_ev env).2 ≠ []) := by
  obtain ⟨cw, g, px, cl, resp, ms⟩ := env
  cases cw
  · constructor
    · intro site hsite
      simp [test_node_http_latency_ev] at hsite
    · intro hcw
      exact absurd hcw (by simp)
  · cases g
    · constructor
      · intro site hsite
        simp [test_node_http_latency_ev] at hsite
        right
        exact ⟨hsite, rfl, rfl⟩
      · intro _
        simp [test_node_http_latency_ev]
    · cases px
      · constructor
        · intro site hsite
          simp [test_node_http_latency_ev] at hsite
          left
          exact hsite
        · intro _
          simp [test_node_http_latency_ev]
      · cases cl
        · constructor
          · intro site hsite
            simp [test_node_http_latency_ev] at hsite
            left
            exact hsite
          · intro _
            simp [test_node_http_latency_ev]
        · cases resp with
          | none =>
            constructor
            · intro site hsite
              simp [test_node_http_latency_ev] at hsite
              left
              exact hsite
            · intro _
              simp [test_node_http_latency_ev]
          | some s =>
            constructor
            · intro site hsite
              simp [test_node_http_latency_ev] at hsite
              left
              exact hsite
            · intro _
              simp [test_node_http_latency_ev]

/-- Concrete instance of claim C6's amended theorem. -/
theorem cleanup_sites_amended_witness :
    (CleanupSite.guardDrop = CleanupSite.guardDrop ∨
      (CleanupSite.guardDrop = CleanupSite.probeStartFailurePath ∧
        (true : Bool) = true ∧ (true : Bool) = false)) ∧
    (test_node_http_latency_ev
      { configWriteOk := true, guardOk := true, proxyOk := true, clientOk := true,
        response := none, elapsedMs := 0 }).2 ≠ [] :=
  ⟨(cleanup_sites_amended
      { configWriteOk := true, guardOk := true, proxyOk := true, clientOk := true,
        response := none, elapsedMs := 0 }).1 CleanupSite.guardDrop (by decide),
   (cleanup_sites_amended
      { configWriteOk := true, guardOk := true, proxyOk := true, clientOk := true,
        response := none, elapsedMs := 0 }).2 rfl⟩

/-! ## Theorems: latency sort order (claim C7) -/

/-- `keyCmp` does not answer `gt` exactly when the first key is
lexicographically at most the second. -/
theorem keyCmp_ne_gt (a b : Nat × Nat) :
    keyCmp a b ≠ Ordering.gt ↔ (a.1 < b.1 ∨ (a.1 = b.1 ∧ a.2 ≤ b.2)) := by
  unfold keyCmp
  cases h1 : compare a.1 b.1 with
  | lt =>
    have e1 := Nat.compare_eq_lt.mp h1
    simp [Ordering.then]
    omega
  | eq =>
    have e1 := Nat.compare_eq_eq.mp h1
    cases h2 : compare a.2 b.2 with
    | lt =>
      have e2 := Nat.compare_eq_lt.mp h2
      simp [Ordering.then]
      omega
    | eq =>
      have e2 := Nat.compare_eq_eq.mp h2
      simp [Ordering.then]
      omega
    | gt =>
      have e2 := Nat.compare_eq_gt.mp h2
      simp [Ordering.then]
      omega
  | gt =>
    have e1 := Nat.compare_eq_gt.mp h1
    simp [Ordering.then]
    omega

/-- Sorting with the comparator `keyCmp ∘ κ` yields a list pairwise
ordered by that key. -/
theorem sorted_by_key_le (κ : IndexedNode → Nat × Nat) (nodes : List IndexedNode) :
    List.Pairwise (fun a b => keyCmp (κ a) (κ b) ≠ Ordering.gt)
      (nodes.mergeSort (fun a b => decide (keyCmp (κ a) (κ b) ≠ Ordering.gt))) := by
  have hs : List.Pairwise
      (fun a b => (fun a b => decide (keyCmp (κ a) (κ b) ≠ Ordering.gt)) a b = true)
      (nodes.mergeSort (fun a b => decide (keyCmp (κ a) (κ b) ≠ Ordering.gt))) :=
    List.sorted_mergeSort
      (fun a b c hab hbc => by
        simp only [decide_eq_true_eq, keyCmp_ne_gt] at hab hbc ⊢
        omega)
      (fun a b => by
        simp only [Bool.or_eq_true, decide_eq_true_eq, keyCmp_ne_gt]
        omega)
      nodes
  exact hs.imp fun hab => by simpa using hab

/-- A lexicographic-key comparison between two latency statuses implies
the ordering the specification describes. -/
theorem key_le_spec (s t : LatencyStatus) :
    keyCmp (latency_sort_key s) (latency_sort_key t) ≠ Ordering.gt →
    specLatencyLe s t := by
  intro h
  rw [keyCmp_ne_gt] at h
  cases s <;> cases t <;>
    simp_all [latency_sort_key, specLatencyLe]

/-- Claim C7: for every node list sorted ascending by the TCP (resp.
HTTP) latency column, every `Success` node precedes every `TimedOut`
node, every `TimedOut` node precedes every `NotTested` node, and among
`Success` nodes the order is ascending by milliseconds; in particular a
view containing `Success(50)`, `Success(10)`, `TimedOut`, `NotTested`
sorts to `[Success(10), Success(50), TimedOut, NotTested]`. -/
theorem latency_sort_order :
    (∀ nodes : List IndexedNode,
      ((apply_sort_to_nodes nodes SortColumn.Tcp SortDirection.Ascending).map
        (fun n => n.node.tcp_latency)).Pairwise specLatencyLe) ∧
    (∀ nodes : List IndexedNode,
      ((apply_sort_to_nodes nodes SortColumn.Http SortDirection.Ascending).map
        (fun n => n.node.http_latency)).Pairwise specLatencyLe) ∧
    ((apply_sort_to_nodes
        [{ node := { VmessNode.default with tcp_latency := LatencyStatus.Success 50 },
           original_index := 0 },
         { node := { VmessNode.default with tcp_latency := LatencyStatus.Success 10 },
           original_index := 1 },
         { node := { VmessNode.default with tcp_latency := LatencyStatus.TimedOut },
           original_index := 2 },
         { node := { VmessNode.default with tcp_latency := LatencyStatus.NotTested },
           original_index := 3 }]
        SortColumn.Tcp SortDirection.Ascending).map (fun n => n.node.tcp_latency))
      = [LatencyStatus.Success 10, LatencyStatus.Success 50,
         LatencyStatus.TimedOut, LatencyStatus.NotTested] := by
  refine ⟨?_, ?_, ?_⟩
  · intro nodes
    rw [List.pairwise_map]
    have e : apply_sort_to_nodes nodes SortColumn.Tcp SortDirection.Ascending =
        nodes.mergeSort (fun a b =>
          decide (keyCmp (latency_sort_key a.node.tcp_latency)
            (latency_sort_key b.node.tcp_latency) ≠ Ordering.gt)) := rfl
    rw [e]
    exact (sorted_by_key_le (fun n => latency_sort_key n.node.tcp_latency) nodes).imp
      fun hab => key_le_spec _ _ hab
  · intro nodes
    rw [List.pairwise_map]
    have e : apply_sort_to_nodes nodes SortColumn.Http SortDirection.Ascending =
        nodes.mergeSort (fun a b =>
          decide (keyCmp (latency_sort_key a.node.http_latency)
            (latency_sort_key b.node.http_latency) ≠ Ordering.gt)) := rfl
    rw [e]
    exact (sorted_by_key_le (fun n => latency_sort_key n.node.http_latency) nodes).imp
      fun hab => key_le_spec _ _ hab
  · simp [apply_sort_to_nodes, List.mergeSort, latency_sort_key, keyCmp, dirCmp,
      Ordering.then, compare, compareOfLessAndEq, VmessNode.default]

/-! ## Theorems: result application (claim C4) -/

/-- `modifyAt` maps the entry at the modified position. -/
theorem modifyAt_getElem_self (f : α → α) :
    ∀ (l : List α) (i : Nat), (modifyAt f i l)[i]? = (l[i]?).map f := by
  intro l
  induction l with
  | nil => intro i; simp [modifyAt]
  | cons a as ih =>
    intro i
    cases i with
    | zero => simp [modifyAt]
    | succ n => simp [modifyAt, ih n]

/-- `modifyAt` leaves every other position untouched. -/
theorem modifyAt_getElem_ne (f : α → α) :
    ∀ (l : List α) (i j : Nat), j ≠ i → (modifyAt f i l)[j]? = l[j]? := by
  intro l
  induction l with
  | nil => intro i j _; simp [modifyAt]
  | cons a as ih =>
    intro i j hji
    cases i with
    | zero =>
      cases j with
      | zero => exact absurd rfl hji
      | succ m => simp [modifyAt]
    | succ n =>
      cases j with
      | zero => simp [modifyAt]
      | succ m => simp [modifyAt, ih n m (by omega)]

/-- `modifyAt` preserves length. -/
theorem modifyAt_length (f : α → α) :
    ∀ (l : List α) (i : Nat), (modifyAt f i l).length = l.length := by
  intro l
  induction l with
  | nil => intro i; cases i <;> rfl
  | cons a as ih =>
    intro i
    cases i with
    | zero => rfl
    | succ n => simp [modifyAt, ih n]

/-- An out-of-range `modifyAt` is the identity. -/
theorem modifyAt_of_le (f : α → α) :
    ∀ (l : List α) (i : Nat), l.length ≤ i → modifyAt f i l = l := by
  intro l
  induction l with
  | nil => intro i _; cases i <;> rfl
  | cons a as ih =>
    intro i hi
    cases i with
    | zero => simp at hi
    | succ n => simp [modifyAt, ih n (by simpa using hi)]

/-- `updateFirst` preserves length. -/
theorem updateFirst_length (p : α → Bool) (f : α → α) :
    ∀ l : List α, (updateFirst p f l).length = l.length := by
  intro l
  induction l with
  | nil => rfl
  | cons a as ih =>
    by_cases h : p a = true
    · simp [updateFirst, h]
    · simp [updateFirst, h, ih]

/-- With no matching element, `updateFirst` is the identity. -/
theorem updateFirst_of_forall (p : α → Bool) (f : α → α) :
    ∀ l : List α, (∀ a ∈ l, p a = false) → updateFirst p f l = l := by
  intro l
  induction l with
  | nil => intro _; rfl
  | cons a as ih =>
    intro h
    have ha : p a = false := h a (by simp)
    simp [updateFirst, ha, ih fun b hb => h b (by simp [hb])]

/-- A list with a matching member has a first matching position. -/
theorem exists_first_match (p : α → Bool) :
    ∀ (l : List α) (a : α), a ∈ l → p a = true →
      ∃ (k : Nat) (b : α), l[k]? = some b ∧ p b = true ∧
        ∀ (j : Nat) (c : α), j < k → l[j]? = some c → p c = false := by
  intro l
  induction l with
  | nil => intro a ha _; simp at ha
  | cons x xs ih =>
    intro a ha hpa
    by_cases hx : p x = true
    · exact ⟨0, x, by simp, hx, fun j c hj _ => absurd hj (by omega)⟩
    · have hx2 : p x = false := by simpa using hx
      have hmem : a ∈ xs := by
        rcases List.mem_cons.mp ha with h | h
        · exact absurd (h ▸ hpa) hx
        · exact h
      obtain ⟨k, b, hkb, hpb, hfirst⟩ := ih a hmem hpa
      refine ⟨k + 1, b, by simpa using hkb, hpb, ?_⟩
      intro j c hj hc
      cases j with
      | zero =>
        simp at hc
        rw [← hc]
        exact hx2
      | succ m => exact hfirst m c (by omega) (by simpa using hc)

/-- At the first matching position, `updateFirst` applies `f` and leaves
every other position untouched. -/
theorem updateFirst_at_first (p : α → Bool) (f : α → α) :
    ∀ (l : List α) (k : Nat) (b : α), l[k]? = some b → p b = true →
      (∀ j c, j < k → l[j]? = some c → p c = false) →
      (updateFirst p f l)[k]? = some (f b) ∧
        ∀ j, j ≠ k → (updateFirst p f l)[j]? = l[j]? := by
  intro l
  induction l with
  | nil => intro k b hkb _ _; simp at hkb
  | cons x xs ih =>
    intro k b hkb hpb hfirst
    cases k with
    | zero =>
      simp at hkb
      subst hkb
      constructor
      · simp [updateFirst, hpb]
      · intro j hj
        cases j with
        | zero => exact absurd rfl hj
        | succ m => simp [updateFirst, hpb]
    | succ n =>
      have hx : p x = false := hfirst 0 x (by omega) (by simp)
      have hkb2 : xs[n]? = some b := by simpa using hkb
      obtain ⟨h1, h2⟩ := ih n b hkb2 hpb
        fun j c hj hc => hfirst (j + 1) c (by omega) (by simpa using hc)
      constructor
      · simp [updateFirst, hx, h1]
      · intro j hj
        cases j with
        | zero => simp [updateFirst, hx]
        | succ m => simp [updateFirst, hx, h2 m (by omega)]

/-- Claim C4: applying a `LatencyResult` with index `i` sets the latency
field of test type `t` to the reported status on the node at canonical
position `i` and on the node of the sorted view whose `original_index`
is `i`, and changes nothing else — no other node, no other field of node
`i`, no position, no `original_index`, no length; if no node of index
`i` exists, both views are left entirely unchanged.  The hypothesis is
the data-model invariant: the sorted view's `original_index` values are
a permutation of the canonical positions. -/
theorem update_latency_frame (app : App) (r : LatencyResult)
    (hperm : (app.sorted_nodes.map IndexedNode.original_index).Perm
      (List.range app.nodes.length)) :
    (∀ n : VmessNode,
      latencyOf r.test_type (setLatency r.test_type r.latency n) = r.latency ∧
      otherFieldsEq r.test_type n (setLatency r.test_type r.latency n)) ∧
    ((app.update_latency r).nodes[r.index]? =
      (app.nodes[r.index]?).map (setLatency r.test_type r.latency)) ∧
    (∀ j, j ≠ r.index → (app.update_latency r).nodes[j]? = app.nodes[j]?) ∧
    ((app.update_latency r).nodes.length = app.nodes.length) ∧
    ((app.update_latency r).sorted_nodes.length = app.sorted_nodes.length) ∧
    (r.index < app.nodes.length →
      ∃ (k : Nat) (nk : IndexedNode),
        app.sorted_nodes[k]? = some nk ∧ nk.original_index = r.index ∧
        (app.update_latency r).sorted_nodes[k]? =
          some { node := setLatency r.test_type r.latency nk.node,
                 original_index := nk.original_index } ∧
        (∀ j, j ≠ k → (app.update_latency r).sorted_nodes[j]? = app.sorted_nodes[j]?) ∧
        (∀ (k2 : Nat) (n2 : IndexedNode),
          app.sorted_nodes[k2]? = some n2 → n2.original_index = r.index →
          k2 = k)) ∧
    (¬ r.index < app.nodes.length → app.update_latency r = app) := by
  obtain ⟨nodes, sorted⟩ := app
  obtain ⟨i, s, tt⟩ := r
  simp only at hperm ⊢
  refine ⟨?_, ?_, ?_, ?_, ?_, ?_, ?_⟩
  · intro n
    cases tt <;> refine ⟨rfl, ?_⟩ <;> simp [otherFieldsEq, setLatency]
  · exact modifyAt_getElem_self (setLatency tt s) nodes i
  · intro j hj
    exact modifyAt_getElem_ne (setLatency tt s) nodes i j hj
  · exact modifyAt_length (setLatency tt s) nodes i
  · exact updateFirst_length _ _ sorted
  · intro hi
    have hmem : i ∈ sorted.map IndexedNode.original_index := by
      rw [hperm.mem_iff]
      exact List.mem_range.mpr hi
    obtain ⟨nk0, hnk0mem, hnk0eq⟩ := List.mem_map.mp hmem
    have hp : (fun n : IndexedNode => n.original_index == i) nk0 = true := by
      simp [hnk0eq]
    obtain ⟨k, b, hkb, hpb, hfirst⟩ :=
      exists_first_match (fun n : IndexedNode => n.original_index == i) sorted nk0
        hnk0mem hp
    obtain ⟨hupd, hframe⟩ :=
      updateFirst_at_first (fun n : IndexedNode => n.original_index == i)
        (fun n => { n with node := setLatency tt s n.node }) sorted k b hkb hpb hfirst
    have hbi : b.original_index = i := by simpa using hpb
    refine ⟨k, b, hkb, hbi, hupd, hframe, ?_⟩
    intro k2 n2 hk2 hn2
    by_cases hlt : k2 < k
    · have hfalse := hfirst k2 n2 hlt hk2
      rw [hn2] at hfalse
      simp at hfalse
    · have hnd : (sorted.map IndexedNode.original_index).Nodup :=
        hperm.nodup_iff.mpr (List.nodup_range _)
      have h1 : (sorted.map IndexedNode.original_index)[k2]? = some i := by
        rw [List.getElem?_map, hk2]
        simp [hn2]
      have h2 : (sorted.map IndexedNode.original_index)[k]? = some i := by
        rw [List.getElem?_map, hkb]
        simp [hbi]
      have hk2len : k2 < (sorted.map IndexedNode.original_index).length := by
        by_contra hge
        rw [List.getElem?_eq_none (by omega)] at h1
        exact Option.noConfusion h1
      exact List.getElem?_inj hk2len hnd (h1.trans h2.symm)
  · intro hi
    have hnodes : modifyAt (setLatency tt s) i nodes = nodes :=
      modifyAt_of_le (setLatency tt s) nodes i (by omega)
    have hsorted : updateFirst (fun n : IndexedNode => n.original_index == i)
        (fun n => { n with node := setLatency tt s n.node }) sorted = sorted := by
      apply updateFirst_of_forall
      intro a ha
      have hmem2 : a.original_index ∈ sorted.map IndexedNode.original_index :=
        List.mem_map.mpr ⟨a, ha, rfl⟩
      have hlt : a.original_index < nodes.length :=
        List.mem_range.mp (hperm.mem_iff.mp hmem2)
      have hne : a.original_index ≠ i := by omega
      simp [hne]
    simp only [App.update_latency]
    rw [hnodes, hsorted]

/-- Concrete instance of claim C4's theorem: applying
`{index := 0, status := Success 42, type := Tcp}` to a two-node app
updates canonical position 0 as described. -/
theorem update_latency_frame_witness :
    (App.update_latency
      { nodes := [{ VmessNode.default with add := "a" },
                  { VmessNode.default with add := "b" }],
        sorted_nodes := [{ node := { VmessNode.default with add := "b" },
                           original_index := 1 },
                         { node := { VmessNode.default with add := "a" },
                           original_index := 0 }] }
      { index := 0, latency := LatencyStatus.Success 42,
        test_type := TestType.Tcp }).nodes[0]? =
    (([{ VmessNode.default with add := "a" },
       { VmessNode.default with add := "b" }] : List VmessNode)[0]?).map
      (setLatency TestType.Tcp (LatencyStatus.Success 42)) :=
  (update_latency_frame
    { nodes := [{ VmessNode.default with add := "a" },
                { VmessNode.default with add := "b" }],
      sorted_nodes := [{ node := { VmessNode.default with add := "b" },
                         original_index := 1 },
                       { node := { VmessNode.default with add := "a" },
                         original_index := 0 }] }
    { index := 0, latency := LatencyStatus.Success 42, test_type := TestType.Tcp }
    (by decide)).2.1

/-! ## Theorems: concurrency scheduler (claims C1, C2) -/

/-- Claim C1: for every node list and every point `t0` at which the
monotone cancel flag is set: no probe whose admission check happens at
or after `t0` is admitted; every admitted probe whose task-start check
still saw the flag unset runs its probe to completion (its outcome
carries the fully computed probe result — there is no cancellation point
inside a probe); any admitted probe whose send check happens at or after
`t0` has its result discarded, never delivered; and the batch still
terminates, returning exactly one outcome per admitted probe. -/
theorem scheduler_cancellation (max_concurrent : Nat) (flag : Nat → Bool)
    (tm : Timing) (probe : Nat → LatencyStatus) (tt : TestType) (M : Nat)
    (c0 : Nat) (t0 : Nat) (hwf : tm.WF) (hmono : MonotoneFlag flag)
    (hfire : flag t0 = true) (hmc : 0 < max_concurrent) :
    (∀ i, t0 ≤ tm.tAdmit i → i ∉ admittedIndices flag tm M) ∧
    (∀ i ∈ admittedIndices flag tm M, flag (tm.tStart i) = false →
      runTask flag tm probe tt i =
          TaskOutcome.discarded { index := i, latency := probe i, test_type := tt } ∨
      runTask flag tm probe tt i =
          TaskOutcome.delivered { index := i, latency := probe i, test_type := tt }) ∧
    (∀ i ∈ admittedIndices flag tm M, t0 ≤ tm.tSend i →
      ∀ r, runTask flag tm probe tt i ≠ TaskOutcome.delivered r) ∧
    (test_all_latencies max_concurrent flag tm probe tt M c0 =
      some ((admittedIndices flag tm M).map (runTask flag tm probe tt),
        portTrace 10800
          (if tt = TestType.Http then (admittedIndices flag tm M).length else 0))) := by
  refine ⟨?_, ?_, ?_, ?_⟩
  · intro i hti hmem
    have hp := List.mem_takeWhile_imp hmem
    simp only [Bool.not_eq_true'] at hp
    have hset : flag (tm.tAdmit i) = true := hmono t0 (tm.tAdmit i) hti hfire
    rw [hset] at hp
    exact Bool.noConfusion hp
  · intro i _ hstart
    by_cases hsend : flag (tm.tSend i) = true
    · left
      simp [runTask, hstart, hsend]
    · right
      simp [runTask, hstart] at hsend ⊢
      simp [hsend]
  · intro i _ hts r
    have hsend : flag (tm.tSend i) = true := hmono t0 (tm.tSend i) hts hfire
    by_cases hstart : flag (tm.tStart i) = true <;> simp [runTask, hstart, hsend]
  · simp only [test_all_latencies, reset_port_counter]
    rw [if_neg fun hc => absurd hc.1 (by omega)]

/-- Concrete instance of claim C1's theorem: three nodes, flag fired at
time 4 (after the admission checks of indices 0 and 1, before that of
index 2). -/
theorem scheduler_cancellation_witness :
    test_all_latencies 1 (fun t => decide (4 ≤ t))
        { tAdmit := fun i => 3 * i, tStart := fun i => 3 * i + 1,
          tSend := fun i => 3 * i + 2 }
        (fun _ => LatencyStatus.Success 7) TestType.Tcp 3 0 =
      some ((admittedIndices (fun t => decide (4 ≤ t))
          { tAdmit := fun i => 3 * i, tStart := fun i => 3 * i + 1,
            tSend := fun i => 3 * i + 2 } 3).map
          (runTask (fun t => decide (4 ≤ t))
            { tAdmit := fun i => 3 * i, tStart := fun i => 3 * i + 1,
              tSend := fun i => 3 * i + 2 }
            (fun _ => LatencyStatus.Success 7) TestType.Tcp),
        portTrace 10800
          (if TestType.Tcp = TestType.Http then
            (admittedIndices (fun t => decide (4 ≤ t))
              { tAdmit := fun i => 3 * i, tStart := fun i => 3 * i + 1,
                tSend := fun i => 3 * i + 2 } 3).length
          else 0)) :=
  (scheduler_cancellation 1 (fun t => decide (4 ≤ t))
    { tAdmit := fun i => 3 * i, tStart := fun i => 3 * i + 1,
      tSend := fun i => 3 * i + 2 }
    (fun _ => LatencyStatus.Success 7) TestType.Tcp 3 0 4
    ⟨fun i j h => by show 3 * i < 3 * j; omega,
     fun i => by show 3 * i < 3 * i + 1; omega,
     fun i => by show 3 * i + 1 < 3 * i + 2; omega⟩
    (fun s t hst hs => by
      simp only [decide_eq_true_eq] at hs ⊢
      omega)
    (by decide) (by decide)).2.2.2

/-- `deliveredResults` of a list of delivered outcomes recovers the
results. -/
theorem deliveredResults_map_delivered (g : Nat → LatencyResult) (l : List Nat) :
    deliveredResults (l.map fun i => TaskOutcome.delivered (g i)) = l.map g := by
  induction l with
  | nil => rfl
  | cons x xs ih =>
    simp only [List.map_cons, deliveredResults, List.filterMap_cons] at ih ⊢
    rw [ih]

/-- Claim C2: if the cancel flag is never set and `max_concurrent` lies
in `[1, M]`, the batch admits all `M` nodes in enumeration order,
terminates with exactly one outcome per node keyed by its enumeration
index, each a delivered result carrying that node's probe value, and
delivers exactly those `M` results to the channel. -/
theorem completion_accounting (max_concurrent : Nat) (tm : Timing)
    (probe : Nat → LatencyStatus) (tt : TestType) (M : Nat) (c0 : Nat)
    (hmc1 : 1 ≤ max_concurrent) (hmcM : max_concurrent ≤ M) :
    admittedIndices (fun _ => false) tm M = List.range M ∧
    test_all_latencies max_concurrent (fun _ => false) tm probe tt M c0 =
      some ((List.range M).map
          (fun i => TaskOutcome.delivered
            { index := i, latency := probe i, test_type := tt }),
        portTrace 10800 (if tt = TestType.Http then M else 0)) ∧
    ((List.range M).map
      (fun i => TaskOutcome.delivered
        { index := i, latency := probe i, test_type := tt })).length = M ∧
    deliveredResults ((List.range M).map
        (fun i => TaskOutcome.delivered
          { index := i, latency := probe i, test_type := tt })) =
      (List.range M).map
        (fun i => ({ index := i, latency := probe i, test_type := tt } :
          LatencyResult)) := by
  have hadm : admittedIndices (fun _ => false) tm M = List.range M :=
    List.takeWhile_eq_self_iff.mpr fun x _ => by simp
  refine ⟨hadm, ?_, ?_, ?_⟩
  · simp only [test_all_latencies, reset_port_counter]
    rw [if_neg fun hc => absurd hc.1 (by omega), hadm]
    have hmap : (List.range M).map (runTask (fun _ => false) tm probe tt) =
        (List.range M).map
          (fun i => TaskOutcome.delivered
            { index := i, latency := probe i, test_type := tt }) :=
      List.map_congr_left fun i _ => by simp [runTask]
    rw [hmap, List.length_range]
  · simp
  · exact deliveredResults_map_delivered
      (fun i => { index := i, latency := probe i, test_type := tt }) (List.range M)

/-- Concrete instance of claim C2's theorem: two nodes at concurrency 1. -/
theorem completion_accounting_witness :
    test_all_latencies 1 (fun _ => false)
        { tAdmit := fun i => i, tStart := fun i => i, tSend := fun i => i }
        (fun _ => LatencyStatus.Success 3) TestType.Tcp 2 0 =
      some ([TaskOutcome.delivered
              { index := 0, latency := LatencyStatus.Success 3,
                test_type := TestType.Tcp },
             TaskOutcome.delivered
              { index := 1, latency := LatencyStatus.Success 3,
                test_type := TestType.Tcp }], []) :=
  (completion_accounting 1
    { tAdmit := fun i => i, tStart := fun i => i, tSend := fun i => i }
    (fun _ => LatencyStatus.Success 3) TestType.Tcp 2 0
    (by decide) (by decide)).2.1

end Subman
